import Mathlib

/-!
Verification of the core of the maker_simulator backtesting engine.

The Rust source is shallowly embedded: `f64` values (prices, quantities,
balances) are modelled as exact rationals `ℚ`, `SystemTime` instants as
natural-number milliseconds since the epoch, interned strings
(`&'static str`, `Arc<str>`) as `String`, and `HashMap`s as total or
partial functions with explicit pointwise update.  Panicking assertions
in the source are not modelled as aborts; where a theorem's scenario
must keep a source assertion satisfied, that condition appears as an
explicit hypothesis.
-/

namespace MakerSim

/-! Translation of crates/account/src/account.rs -/

/-- One asset's balance: the `balance` field is the free amount, `locked`
the reserved amount (source: `AssetBalance`). -/
structure AssetBalance where
  balance : ℚ
  locked : ℚ
deriving DecidableEq, Repr

/-- Source `AssetBalance::try_lock_balance`: lock `amount` if
`balance >= locked + amount`, returning the new balance and whether the
lock succeeded. -/
def try_lock_balance (b : AssetBalance) (amount : ℚ) : AssetBalance × Bool :=
  if b.balance ≥ b.locked + amount then
    ({ b with locked := b.locked + amount }, true)
  else
    (b, false)

/-- Source `AssetBalance::unlock_balance` (its assertion
`locked + 1e-8 >= amount` is modelled as a hypothesis where needed). -/
def unlock_balance (b : AssetBalance) (amount : ℚ) : AssetBalance :=
  { b with locked := b.locked - amount }

/-- Source `AssetBalance::consume_locked`: reduce both the free and the
locked amount. -/
def consume_locked (b : AssetBalance) (amount : ℚ) : AssetBalance :=
  { balance := b.balance - amount, locked := b.locked - amount }

/-- Source `AssetBalance::add_balance`. -/
def add_balance (b : AssetBalance) (amount : ℚ) : AssetBalance :=
  { b with balance := b.balance + amount }

/-- Source `AssetBalance::deduce_balance`. -/
def deduce_balance (b : AssetBalance) (amount : ℚ) : AssetBalance :=
  { b with balance := b.balance - amount }

/-- The tolerance `1e-8` of the spec's balance invariant. -/
def eps : ℚ := 1 / 100000000

/-- The balance invariant: `locked ≤ free + 1e-8`. -/
def balance_inv (b : AssetBalance) : Prop := b.locked ≤ b.balance + eps

instance (b : AssetBalance) : Decidable (balance_inv b) := by
  unfold balance_inv; infer_instance

/-- An account maps asset names to balances; `get_or_create` with the
`Default` instance makes it a total function defaulting to zero. -/
def Account : Type := String → AssetBalance

/-- Pointwise update of an account (the effect of mutating the entry
returned by `Account::get_or_create`). -/
def acct_update (a : Account) (asset : String) (b : AssetBalance) : Account :=
  fun x => if x = asset then b else a x

/-- Every asset of the account satisfies the balance invariant. -/
def account_inv (a : Account) : Prop := ∀ asset, balance_inv (a asset)

/-! Translation of crates/upstair_type/src/order.rs -/

inductive TradeSide where
  | buy
  | sell
deriving DecidableEq, Repr

inductive TradeType where
  | limit
  | limit_maker
  | market
deriving DecidableEq, Repr

inductive TimeInForce where
  | good_til_cancelled
  | immediate_or_cancelled
  | fill_or_kill
deriving DecidableEq, Repr

structure OrderRequest where
  symbol : String
  side : TradeSide
  price : ℚ
  quantity : ℚ
  trade_type : TradeType
  time_in_force : TimeInForce
  client_order_id : String
  cancel_order_id : Option String
deriving DecidableEq, Repr

structure CancelOrderRequest where
  symbol : String
  client_order_id : String
deriving DecidableEq, Repr

inductive OrderStatus where
  | new
  | partially_filled
  | filled
  | canceled
  | rejected
  | expired
  | expired_in_match
deriving DecidableEq, Repr

structure OrderResult where
  symbol : String
  at_time : ℕ
  client_order_id : String
  filled_quantity : ℚ
  price : ℚ
  is_buy : Bool
  status : OrderStatus
deriving DecidableEq, Repr

/-! Translation of crates/market_agent/src/simple_market.rs -/

/-- A resting limit order of the book (source: `LimitOrder`). -/
structure LimitOrder where
  price : ℚ
  quantity : ℚ
  filled : ℚ
  submit_at : ℕ
  side : TradeSide
  order_id : String
deriving DecidableEq, Repr

/-- A buffered market trade from the tape (source: `MarketTrade`). -/
structure MarketTrade where
  price : ℚ
  quantity : ℚ
  trade_at : ℕ
  is_buyer_maker : Bool
deriving DecidableEq, Repr

/-- A fill event produced by matching (source: `MarketEvent`; the field
`reamin_qty_to_fill` keeps the source's spelling). -/
structure MarketEvent where
  side : TradeSide
  price : ℚ
  quantity : ℚ
  reamin_qty_to_fill : ℚ
  event_at : ℕ
  order_id : String
deriving DecidableEq, Repr

/-- The per-symbol market (source: `SimpleMarket`). -/
structure SimpleMarket where
  open_orders : List LimitOrder
  market_trade_buf : List MarketTrade
  last_trade_price : ℚ
deriving DecidableEq, Repr

/-- Source `SimpleMarket::new`. -/
def SimpleMarket.new : SimpleMarket :=
  { open_orders := [], market_trade_buf := [], last_trade_price := 0 }

/-- The comparator of `SimpleMarket::add_order`'s `sort_by` as a
non-strict total order: price ascending, then `submit_at` ascending. -/
def order_le (a b : LimitOrder) : Prop :=
  a.price < b.price ∨ (a.price = b.price ∧ a.submit_at ≤ b.submit_at)

instance : DecidableRel order_le := fun a b => by
  unfold order_le; infer_instance

instance : IsTotal LimitOrder order_le := by
  constructor
  intro a b
  rcases lt_trichotomy a.price b.price with h | h | h
  · exact Or.inl (Or.inl h)
  · rcases le_total a.submit_at b.submit_at with h2 | h2
    · exact Or.inl (Or.inr ⟨h, h2⟩)
    · exact Or.inr (Or.inr ⟨h.symm, h2⟩)
  · exact Or.inr (Or.inl h)

instance : IsTrans LimitOrder order_le := by
  constructor
  intro a b c hab hbc
  rcases hab with h1 | ⟨h1, h1t⟩ <;> rcases hbc with h2 | ⟨h2, h2t⟩
  · exact Or.inl (h1.trans h2)
  · exact Or.inl (h2 ▸ h1)
  · exact Or.inl (h1 ▸ h2)
  · exact Or.inr ⟨h1.trans h2, h1t.trans h2t⟩

/-- Source `SimpleMarket::add_order`: reject quantity `≤ 0`, silently
ignore an order id already resting, otherwise push and stable-sort by
`(price, submit_at)`. -/
def add_order (m : SimpleMarket) (o : LimitOrder) : SimpleMarket :=
  if o.quantity ≤ 0 then m
  else if m.open_orders.any (fun x => x.order_id == o.order_id) then m
  else { m with open_orders := List.insertionSort order_le (m.open_orders ++ [o]) }

/-- Source `SimpleMarket::get_order`. -/
def get_order (m : SimpleMarket) (oid : String) : Option LimitOrder :=
  m.open_orders.find? (fun o => o.order_id == oid)

/-- Source `SimpleMarket::cancel_order`: retain every order whose id
differs. -/
def cancel_order (m : SimpleMarket) (oid : String) : SimpleMarket :=
  { m with open_orders := m.open_orders.filter (fun o => !(o.order_id == oid)) }

/-- Source `SimpleMarket::add_market_trade`. -/
def add_market_trade (m : SimpleMarket) (t : MarketTrade) : SimpleMarket :=
  { m with last_trade_price := t.price,
           market_trade_buf := m.market_trade_buf ++ [t] }

/-- The aggressive-sell loop of `try_match_market`: walk the given list
(the book reversed, i.e. highest price first), fill each resting buy with
`price ≥ trade price` by `min(remaining, trade remaining)`, and break out
once the trade's remaining quantity is `≤ 0`.  Returns the walked list
with updated fills and the emitted events. -/
def sweep_buys : List LimitOrder → ℚ → ℚ → ℕ → List LimitOrder × List MarketEvent
  | [], _, _, _ => ([], [])
  | o :: rest, remain, tprice, tat =>
    if o.side = TradeSide.buy ∧ o.price ≥ tprice then
      let fill := min (o.quantity - o.filled) remain
      let o' : LimitOrder := { o with filled := o.filled + fill }
      let ev : MarketEvent :=
        { side := o.side, price := o.price, quantity := fill,
          reamin_qty_to_fill := o.quantity - o'.filled,
          event_at := tat, order_id := o.order_id }
      if remain - fill ≤ 0 then (o' :: rest, [ev])
      else
        let p := sweep_buys rest (remain - fill) tprice tat
        (o' :: p.1, ev :: p.2)
    else
      let p := sweep_buys rest remain tprice tat
      (o :: p.1, p.2)

/-- The aggressive-buy loop of `try_match_market`: walk the book in
ascending order, fill each resting sell with `price ≤ trade price`. -/
def sweep_sells : List LimitOrder → ℚ → ℚ → ℕ → List LimitOrder × List MarketEvent
  | [], _, _, _ => ([], [])
  | o :: rest, remain, tprice, tat =>
    if o.side = TradeSide.sell ∧ o.price ≤ tprice then
      let fill := min (o.quantity - o.filled) remain
      let o' : LimitOrder := { o with filled := o.filled + fill }
      let ev : MarketEvent :=
        { side := o.side, price := o.price, quantity := fill,
          reamin_qty_to_fill := o.quantity - o'.filled,
          event_at := tat, order_id := o.order_id }
      if remain - fill ≤ 0 then (o' :: rest, [ev])
      else
        let p := sweep_sells rest (remain - fill) tprice tat
        (o' :: p.1, ev :: p.2)
    else
      let p := sweep_sells rest remain tprice tat
      (o :: p.1, p.2)

/-- Processing of one buffered trade inside `try_match_market`: run the
side-appropriate sweep, then remove fully filled orders (the source's
`retain(|o| o.filled < o.quantity)`). -/
def match_one_trade (orders : List LimitOrder) (t : MarketTrade) :
    List LimitOrder × List MarketEvent :=
  if t.is_buyer_maker then
    let p := sweep_buys orders.reverse t.quantity t.price t.trade_at
    (p.1.reverse.filter (fun o => o.filled < o.quantity), p.2)
  else
    let p := sweep_sells orders t.quantity t.price t.trade_at
    (p.1.filter (fun o => o.filled < o.quantity), p.2)

/-- The drain loop of `try_match_market` over the buffered trades. -/
def run_trades : List LimitOrder → List MarketTrade → List LimitOrder × List MarketEvent
  | orders, [] => (orders, [])
  | orders, t :: ts =>
    let p := match_one_trade orders t
    let q := run_trades p.1 ts
    (q.1, p.2 ++ q.2)

/-- Source `SimpleMarket::try_match_market`: drain the trade buffer,
match each trade against the book, and return the emitted events. -/
def try_match_market (m : SimpleMarket) : SimpleMarket × List MarketEvent :=
  let r := run_trades m.open_orders m.market_trade_buf
  ({ m with open_orders := r.1, market_trade_buf := [] }, r.2)

/-! Translation of crates/symbol_info -/

/-- Source `SymbolInfo`. -/
structure SymbolInfo where
  base_asset : String
  quote_asset : String
  fee_rate : ℚ
deriving DecidableEq, Repr

/-- Source `SymbolTradeResult`. -/
structure SymbolTradeResult where
  pay_asset : String
  recv_asset : String
  fee_asset : String
  pay_qty : ℚ
  recv_qty : ℚ
  fee_qty : ℚ
deriving DecidableEq, Repr

/-- Source `calc_trade_result` of crates/symbol_info/src/symbol_trade.rs. -/
def calc_trade_result (symbol_info : SymbolInfo) (price qty : ℚ) (is_buy : Bool) :
    SymbolTradeResult :=
  let t : ℚ × String × ℚ × String :=
    if is_buy then
      (qty * price, symbol_info.quote_asset, qty, symbol_info.base_asset)
    else
      (qty, symbol_info.base_asset, qty * price, symbol_info.quote_asset)
  let fee_asset := t.2.2.2
  let fee_qty := t.2.2.1 * symbol_info.fee_rate
  let recv_qty := t.2.2.1 - fee_qty
  { pay_asset := t.2.1, recv_asset := t.2.2.2, pay_qty := t.1,
    recv_qty := recv_qty, fee_asset := fee_asset, fee_qty := fee_qty }

/-! Translation of the order-intake and cancel paths of
crates/market_agent/src/market_agent.rs.  The agent state keeps the
account, the per-symbol markets and the symbol metadata; the comms and
stats side effects carry no balance or book state and are omitted. -/

/-- The matcher state touched by order intake and cancel (source:
fields `account`, `market_by_symbol`, `symobl_info_manager` of
`MarketAgent`). -/
structure AgentState where
  account : Account
  markets : String → Option SimpleMarket
  symbol_info : String → Option SymbolInfo

/-- Pointwise update of the market map. -/
def mkts_update (f : String → Option SimpleMarket) (sym : String) (m : SimpleMarket) :
    String → Option SimpleMarket :=
  fun x => if x = sym then some m else f x

/-- The paying asset of an order request (source: the pair
`(pay_asset, pay_amt)` computed in `process_order_request`). -/
def pay_asset_of (info : SymbolInfo) (req : OrderRequest) : String :=
  if req.side = TradeSide.buy then info.quote_asset else info.base_asset

/-- The amount locked for an order request: `price * quantity` of the
quote asset for a buy, `quantity` of the base asset for a sell. -/
def pay_amt_of (_info : SymbolInfo) (req : OrderRequest) : ℚ :=
  if req.side = TradeSide.buy then req.price * req.quantity else req.quantity

/-- Source `MarketAgent::process_order_request`: look up the symbol
metadata, lock `price * quantity` of the quote asset (buy) or `quantity`
of the base asset (sell), then insert the order into the symbol's book.
Returns the new state and `true` for `Ok`, `false` for `Err`. -/
def process_order_request (st : AgentState) (req : OrderRequest) (commit_at : ℕ) :
    AgentState × Bool :=
  match st.symbol_info req.symbol with
  | Option.none => (st, false)
  | Option.some info =>
    let pay : String × ℚ := (pay_asset_of info req, pay_amt_of info req)
    let lk := try_lock_balance (st.account pay.1) pay.2
    if lk.2 = false then (st, false)
    else
      let st1 : AgentState := { st with account := acct_update st.account pay.1 lk.1 }
      match st1.markets req.symbol with
      | Option.none => (st1, false)
      | Option.some mkt =>
        ({ st1 with
            markets := mkts_update st1.markets req.symbol
              (add_order mkt
                { price := req.price, quantity := req.quantity, filled := 0,
                  submit_at := commit_at, side := req.side,
                  order_id := req.client_order_id }) },
         true)

/-- Source `MarketAgent::process_cancel_order_request`: locate the order
by client id, unlock `price * remaining` (buy) or `remaining` (sell) of
the corresponding asset, then remove the order from the book. -/
def process_cancel_order_request (st : AgentState) (creq : CancelOrderRequest) :
    AgentState × Bool :=
  match st.symbol_info creq.symbol with
  | Option.none => (st, false)
  | Option.some info =>
    match st.markets creq.symbol with
    | Option.none => (st, false)
    | Option.some mkt =>
      match get_order mkt creq.client_order_id with
      | Option.none => (st, false)
      | Option.some o =>
        let lockd : String × ℚ :=
          if o.side = TradeSide.buy then
            (info.quote_asset, o.price * (o.quantity - o.filled))
          else (info.base_asset, o.quantity - o.filled)
        let st1 : AgentState :=
          { st with account :=
              acct_update st.account lockd.1 (unlock_balance (st.account lockd.1) lockd.2) }
        ({ st1 with
            markets := mkts_update st1.markets creq.symbol
              (cancel_order mkt creq.client_order_id) },
         true)

/-- The `OrderRequest` arm of `MarketAgent::ingest_order_request`: a
request with `price ≤ 0` is dropped with no reply at all; otherwise the
order is processed and a single `OrderResult` with status `new` (on `Ok`)
or `rejected` (on `Err`) and `filled_quantity = 0` is published. -/
def ingest_order_request (st : AgentState) (req : OrderRequest) (now commit_at : ℕ) :
    AgentState × List OrderResult :=
  if req.price ≤ 0 then (st, [])
  else
    let r := process_order_request st req commit_at
    (r.1,
     [{ symbol := req.symbol, at_time := now,
        client_order_id := req.client_order_id, filled_quantity := 0,
        price := req.price, is_buy := req.side == TradeSide.buy,
        status := if r.2 then OrderStatus.new else OrderStatus.rejected }])

/-- The `CancelOrderRequest` arm of `MarketAgent::ingest_order_request`:
a found order is cancelled and answered with status `canceled`; a miss
produces no reply message. -/
def ingest_cancel_order_request (st : AgentState) (creq : CancelOrderRequest) (now : ℕ) :
    AgentState × List OrderResult :=
  let r := process_cancel_order_request st creq
  if r.2 then
    (r.1,
     [{ symbol := creq.symbol, at_time := now,
        client_order_id := creq.client_order_id, filled_quantity := 0,
        price := 0, is_buy := false, status := OrderStatus.canceled }])
  else (r.1, [])

/-- The fill-emission loop at the head of `MarketAgent::one_iteration`,
parameterised by the order in which the symbols of `market_by_symbol`
are visited (in the source this is the iteration order of a Rust
`HashMap`, which is randomized per map instance): for each symbol in
the given order, the events of `try_match_market` are emitted in
sequence. -/
def one_iteration_fill_events (markets : String → Option SimpleMarket)
    (symbol_order : List String) : List (String × MarketEvent) :=
  symbol_order.foldl
    (fun acc sym =>
      match markets sym with
      | Option.none => acc
      | Option.some m => acc ++ (try_match_market m).2.map (fun e => (sym, e)))
    []

/-! Translation of crates/binance_republisher/src/binance_republisher.rs -/

/-- Source `BinanceTradeTick` (crates/upstair_type, market data). -/
structure BinanceTradeTick where
  id : ℕ
  price : ℚ
  qty : ℚ
  base_qty : ℚ
  time : ℕ
  is_buyer_maker : Bool
  symbol : String
deriving DecidableEq, Repr

/-- Source `BinanceBookTicker`. -/
structure BinanceBookTicker where
  update_id : ℕ
  best_bid_price : ℚ
  best_bid_qty : ℚ
  best_ask_price : ℚ
  best_ask_qty : ℚ
  transaction_time : ℕ
  event_time : ℕ
  symbol : String
deriving DecidableEq, Repr

/-- Source `PeekingTick`. -/
inductive PeekingTick where
  | none
  | tradeTick (t : BinanceTradeTick)
  | bookTicker (b : BinanceBookTicker)
deriving DecidableEq, Repr

/-- The replay cursor: the two input streams (already drained into
lists), the held peek and its timestamp (source: the corresponding
fields of `BinanceRepublisher`). -/
structure ReplayState where
  trade_ticks : List BinanceTradeTick
  booktickers : List BinanceBookTicker
  peeking_tick : PeekingTick
  peeking_tick_time : ℕ
deriving DecidableEq, Repr

/-- Source `BinanceRepublisher::next_tick`: refill the peek from the
stream whose head has the smaller timestamp; when both heads exist and
`trade.time < ticker.event_time` fails (including ties) the book ticker
is taken. -/
def next_tick (s : ReplayState) : ReplayState :=
  match s.trade_ticks, s.booktickers with
  | [], [] => { s with peeking_tick := PeekingTick.none }
  | [], b :: bs =>
    { s with peeking_tick := PeekingTick.bookTicker b,
             peeking_tick_time := b.event_time, booktickers := bs }
  | t :: ts, [] =>
    { s with peeking_tick := PeekingTick.tradeTick t,
             peeking_tick_time := t.time, trade_ticks := ts }
  | t :: ts, b :: bs =>
    if t.time < b.event_time then
      { s with peeking_tick := PeekingTick.tradeTick t,
               peeking_tick_time := t.time, trade_ticks := ts }
    else
      { s with peeking_tick := PeekingTick.bookTicker b,
               peeking_tick_time := b.event_time, booktickers := bs }

/-- The sequence of `(event, commit_at)` pairs the republisher publishes
on market_data: each held peek is published and the cursor advanced
until the peek is exhausted (the scheduler always re-wakes the module at
the peek's own timestamp, so the time gate of `one_iteration` never
drops an event). -/
def replay_seq_aux : ℕ → ReplayState → List (PeekingTick × ℕ)
  | 0, _ => []
  | fuel + 1, s =>
    match s.peeking_tick with
    | PeekingTick.none => []
    | pk => (pk, s.peeking_tick_time) :: replay_seq_aux fuel (next_tick s)

/-- The full published market_data sequence for the two input tapes
(`start` primes the peek with one `next_tick`). -/
def replay_published (ts : List BinanceTradeTick) (bs : List BinanceBookTicker) :
    List (PeekingTick × ℕ) :=
  let s0 := next_tick
    { trade_ticks := ts, booktickers := bs,
      peeking_tick := PeekingTick.none, peeking_tick_time := 0 }
  replay_seq_aux (ts.length + bs.length + 1) s0

/-! Claim-side definitions (stated from the spec's words, for comparison
with the source translation) and concrete example states. -/

/-- Stated from the spec's matching walk: visit the given qualifying
orders in sequence, fill each by `min(order remaining, trade remaining)`,
and stop once the trade's remaining quantity reaches zero.  Produces the
`(order id, fill quantity)` pairs in visit order. -/
def spec_fill_walk : List LimitOrder → ℚ → List (String × ℚ)
  | [], _ => []
  | o :: rest, remain =>
    if remain ≤ 0 then []
    else
      (o.order_id, min (o.quantity - o.filled) remain) ::
        spec_fill_walk rest (remain - min (o.quantity - o.filled) remain)

/-- A resting buy eligible against an aggressive sell at `tprice`. -/
def qualifies_buy (tprice : ℚ) (o : LimitOrder) : Bool :=
  decide (o.side = TradeSide.buy ∧ o.price ≥ tprice)

/-- A resting sell eligible against an aggressive buy at `tprice`. -/
def qualifies_sell (tprice : ℚ) (o : LimitOrder) : Bool :=
  decide (o.side = TradeSide.sell ∧ o.price ≤ tprice)

/-- Forget the mutable `filled` field of an order; matching only ever
rewrites `filled`, so the image under this map is match-invariant. -/
def erase_filled (o : LimitOrder) : LimitOrder := { o with filled := 0 }

/-- The book invariants of the spec: distinct order ids, positive
quantities, and sortedness by `(price, submit_at)`. -/
def book_inv (l : List LimitOrder) : Prop :=
  (l.Pairwise fun a b => a.order_id ≠ b.order_id)
    ∧ (∀ o ∈ l, 0 < o.quantity)
    ∧ l.Sorted order_le

/-- The order books reachable from the fresh market by any sequence of
`add_order`, `cancel_order`, `add_market_trade` and `try_match_market`
operations. -/
inductive Reachable : SimpleMarket → Prop where
  | init : Reachable SimpleMarket.new
  | add (m : SimpleMarket) (o : LimitOrder) : Reachable m → Reachable (add_order m o)
  | cancel (m : SimpleMarket) (oid : String) : Reachable m → Reachable (cancel_order m oid)
  | trade (m : SimpleMarket) (t : MarketTrade) : Reachable m → Reachable (add_market_trade m t)
  | matching (m : SimpleMarket) : Reachable m → Reachable (try_match_market m).1

/-- The book of scenario S3: buys `A@100 qty=10` then `B@101 qty=10`,
then the aggressive-sell tape trade `price=100, qty=15`. -/
def s3_market : SimpleMarket :=
  add_market_trade
    (add_order
      (add_order SimpleMarket.new
        { price := 100, quantity := 10, filled := 0, submit_at := 1,
          side := TradeSide.buy, order_id := "A" })
      { price := 101, quantity := 10, filled := 0, submit_at := 2,
        side := TradeSide.buy, order_id := "B" })
    { price := 100, quantity := 15, trade_at := 3, is_buyer_maker := true }

/-- Example symbol metadata for the BTCUSDT market with zero fee. -/
def ex_info : SymbolInfo := { base_asset := "BTC", quote_asset := "USDT", fee_rate := 0 }

/-- Example account: 10 USDT free, nothing locked. -/
def ex_account : Account := fun a => if a = "USDT" then ⟨10, 0⟩ else ⟨0, 0⟩

/-- Example matcher state: the BTCUSDT symbol is configured and its
market exists with an empty book. -/
def ex_state : AgentState :=
  { account := ex_account,
    markets := fun s => if s = "BTCUSDT" then some SimpleMarket.new else Option.none,
    symbol_info := fun s => if s = "BTCUSDT" then some ex_info else Option.none }

/-- A buy request with zero price. -/
def ex_req_zero_price : OrderRequest :=
  { symbol := "BTCUSDT", side := TradeSide.buy, price := 0, quantity := 1,
    trade_type := TradeType.limit, time_in_force := TimeInForce.good_til_cancelled,
    client_order_id := "cid0", cancel_order_id := Option.none }

/-- A buy request with positive price but negative quantity. -/
def ex_req_neg_qty : OrderRequest :=
  { symbol := "BTCUSDT", side := TradeSide.buy, price := 1, quantity := -1,
    trade_type := TradeType.limit, time_in_force := TimeInForce.good_til_cancelled,
    client_order_id := "cidn", cancel_order_id := Option.none }

/-- A well-formed buy request: price 1, quantity 2, fresh id. -/
def ex_req_good : OrderRequest :=
  { symbol := "BTCUSDT", side := TradeSide.buy, price := 1, quantity := 2,
    trade_type := TradeType.limit, time_in_force := TimeInForce.good_til_cancelled,
    client_order_id := "cidg", cancel_order_id := Option.none }

/-- A buy request requiring more than the free balance (price 100,
quantity 1 needs 100 USDT against 10 free). -/
def ex_req_big : OrderRequest :=
  { symbol := "BTCUSDT", side := TradeSide.buy, price := 100, quantity := 1,
    trade_type := TradeType.limit, time_in_force := TimeInForce.good_til_cancelled,
    client_order_id := "cidb", cancel_order_id := Option.none }

/-- Cancel request for the negative-quantity order id. -/
def ex_cancel_neg : CancelOrderRequest := { symbol := "BTCUSDT", client_order_id := "cidn" }

/-- Cancel request for the well-formed order id. -/
def ex_cancel_good : CancelOrderRequest := { symbol := "BTCUSDT", client_order_id := "cidg" }

/-- A trade tick whose only varying field is the millisecond time. -/
def trade_at_ms (n : ℕ) : BinanceTradeTick :=
  { id := 0, price := 100, qty := 1, base_qty := 1, time := n,
    is_buyer_maker := true, symbol := "BTCUSDT" }

/-- A book ticker whose only varying field is the event time. -/
def ticker_at_ms (n : ℕ) : BinanceBookTicker :=
  { update_id := 0, best_bid_price := 99, best_bid_qty := 1, best_ask_price := 101,
    best_ask_qty := 1, transaction_time := n, event_time := n, symbol := "BTCUSDT" }

/-- A replay cursor holding one trade and one ticker, both at 10 ms. -/
def c1_tie_state : ReplayState :=
  { trade_ticks := [trade_at_ms 10], booktickers := [ticker_at_ms 10],
    peeking_tick := PeekingTick.none, peeking_tick_time := 0 }

/-- A one-order market for symbol AAA with a sweeping tape trade. -/
def c9_mkt_a : SimpleMarket :=
  add_market_trade
    (add_order SimpleMarket.new
      { price := 100, quantity := 1, filled := 0, submit_at := 0,
        side := TradeSide.buy, order_id := "a1" })
    { price := 100, quantity := 1, trade_at := 0, is_buyer_maker := true }

/-- A one-order market for symbol BBB with a sweeping tape trade. -/
def c9_mkt_b : SimpleMarket :=
  add_market_trade
    (add_order SimpleMarket.new
      { price := 200, quantity := 1, filled := 0, submit_at := 0,
        side := TradeSide.buy, order_id := "b1" })
    { price := 200, quantity := 1, trade_at := 0, is_buyer_maker := true }

/-- A two-symbol market map, as `market_by_symbol` would hold it. -/
def c9_markets : String → Option SimpleMarket := fun s =>
  if s = "AAA" then some c9_mkt_a
  else if s = "BBB" then some c9_mkt_b
  else Option.none

/-- A concrete order used to exercise the reachable-book invariants. -/
def w8_order : LimitOrder :=
  { price := 100, quantity := 10, filled := 0, submit_at := 1,
    side := TradeSide.buy, order_id := "A" }

/-- Matcher state whose BTCUSDT book already holds the resting order
with id "A". -/
def ex_state_dup : AgentState :=
  { account := ex_account,
    markets := fun s =>
      if s = "BTCUSDT" then some (add_order SimpleMarket.new w8_order) else Option.none,
    symbol_info := fun s => if s = "BTCUSDT" then some ex_info else Option.none }

/-- A buy request re-using the already-resting client id "A". -/
def ex_req_dup : OrderRequest :=
  { symbol := "BTCUSDT", side := TradeSide.buy, price := 1, quantity := 2,
    trade_type := TradeType.limit, time_in_force := TimeInForce.good_til_cancelled,
    client_order_id := "A", cancel_order_id := Option.none }

/-- The replay cursor of scenario S5: trades at 10 and 30 ms, one book
ticker at 20 ms. -/
def c1_merge_state : ReplayState :=
  { trade_ticks := [trade_at_ms 10, trade_at_ms 30], booktickers := [ticker_at_ms 20],
    peeking_tick := PeekingTick.none, peeking_tick_time := 0 }

/-! Theorems -/

/-- C7 — Trade-result arithmetic: for every symbol metadata, price, qty
and side, `calc_trade_result` pays `price * qty` of the quote asset and
receives `qty` of the base asset gross on a buy (symmetrically on a
sell), charges the fee on the receive side at `fee_rate`, and returns a
net receive of `gross * (1 - fee_rate)`. -/
theorem C7_trade_result_arithmetic (info : SymbolInfo) (price qty : ℚ) :
    ((calc_trade_result info price qty true).pay_asset = info.quote_asset
      ∧ (calc_trade_result info price qty true).pay_qty = price * qty
      ∧ (calc_trade_result info price qty true).recv_asset = info.base_asset
      ∧ (calc_trade_result info price qty true).fee_asset
          = (calc_trade_result info price qty true).recv_asset
      ∧ (calc_trade_result info price qty true).fee_qty = qty * info.fee_rate
      ∧ (calc_trade_result info price qty true).recv_qty
          = qty - (calc_trade_result info price qty true).fee_qty
      ∧ (calc_trade_result info price qty true).recv_qty = qty * (1 - info.fee_rate))
    ∧ ((calc_trade_result info price qty false).pay_asset = info.base_asset
      ∧ (calc_trade_result info price qty false).pay_qty = qty
      ∧ (calc_trade_result info price qty false).recv_asset = info.quote_asset
      ∧ (calc_trade_result info price qty false).fee_asset
          = (calc_trade_result info price qty false).recv_asset
      ∧ (calc_trade_result info price qty false).fee_qty = price * qty * info.fee_rate
      ∧ (calc_trade_result info price qty false).recv_qty
          = price * qty - (calc_trade_result info price qty false).fee_qty
      ∧ (calc_trade_result info price qty false).recv_qty
          = price * qty * (1 - info.fee_rate)) := by
  have h1 : calc_trade_result info price qty true =
      { pay_asset := info.quote_asset, recv_asset := info.base_asset,
        fee_asset := info.base_asset, pay_qty := qty * price,
        recv_qty := qty - qty * info.fee_rate, fee_qty := qty * info.fee_rate } := rfl
  have h2 : calc_trade_result info price qty false =
      { pay_asset := info.base_asset, recv_asset := info.quote_asset,
        fee_asset := info.quote_asset, pay_qty := qty,
        recv_qty := qty * price - qty * price * info.fee_rate,
        fee_qty := qty * price * info.fee_rate } := rfl
  rw [h1, h2]
  refine ⟨⟨rfl, by ring, rfl, rfl, rfl, rfl, by ring⟩,
          rfl, rfl, rfl, rfl, by ring, by ring, by ring⟩

/-- C3 — Balance invariant: every balance mutation the matcher uses
preserves `locked ≤ free + 1e-8`: `try_lock_balance` under any amount,
`unlock_balance` and `add_balance` under the nonnegative amounts the
matcher passes them, `consume_locked` under any amount; order intake
preserves the invariant account-wide, cancel preserves it account-wide
whenever the books hold nonnegative prices and `filled ≤ quantity`, and
the net receive quantity credited by a fill is nonnegative. -/
theorem C3_balance_invariant :
    (∀ (b : AssetBalance) (amount : ℚ),
        balance_inv b → balance_inv (try_lock_balance b amount).1)
    ∧ (∀ (b : AssetBalance) (amount : ℚ),
        0 ≤ amount → balance_inv b → balance_inv (unlock_balance b amount))
    ∧ (∀ (b : AssetBalance) (amount : ℚ),
        balance_inv b → balance_inv (consume_locked b amount))
    ∧ (∀ (b : AssetBalance) (amount : ℚ),
        0 ≤ amount → balance_inv b → balance_inv (add_balance b amount))
    ∧ (∀ (st : AgentState) (req : OrderRequest) (c : ℕ),
        account_inv st.account → account_inv (process_order_request st req c).1.account)
    ∧ (∀ (st : AgentState) (creq : CancelOrderRequest),
        (∀ sym mkt, st.markets sym = some mkt →
          ∀ o ∈ mkt.open_orders, 0 ≤ o.price ∧ o.filled ≤ o.quantity) →
        account_inv st.account →
        account_inv (process_cancel_order_request st creq).1.account)
    ∧ (∀ (info : SymbolInfo) (price qty : ℚ) (ib : Bool),
        0 ≤ price → 0 ≤ qty → info.fee_rate ≤ 1 →
        0 ≤ (calc_trade_result info price qty ib).recv_qty) := by
  have heps : (0 : ℚ) ≤ eps := by norm_num [eps]
  have hlock : ∀ (b : AssetBalance) (amount : ℚ),
      balance_inv b → balance_inv (try_lock_balance b amount).1 := by
    intro b amount h
    by_cases hge : b.balance ≥ b.locked + amount
    · simp only [try_lock_balance, if_pos hge]
      unfold balance_inv at *
      simp only
      linarith
    · simp only [try_lock_balance, if_neg hge]
      exact h
  have hunlock : ∀ (b : AssetBalance) (amount : ℚ),
      0 ≤ amount → balance_inv b → balance_inv (unlock_balance b amount) := by
    intro b amount ha h
    unfold balance_inv unlock_balance at *
    simp only
    linarith
  have hupd : ∀ (a : Account) (asset : String) (b : AssetBalance),
      balance_inv b → account_inv a → account_inv (acct_update a asset b) := by
    intro a asset b hb ha x
    unfold acct_update
    by_cases hx : x = asset
    · simpa [hx] using hb
    · simpa [hx] using ha x
  have hproc : ∀ (st : AgentState) (req : OrderRequest) (c : ℕ),
      account_inv st.account → account_inv (process_order_request st req c).1.account := by
    intro st req c h
    unfold process_order_request
    cases hsym : st.symbol_info req.symbol with
    | none => exact h
    | some info =>
      simp only
      by_cases hlk :
          (try_lock_balance (st.account (pay_asset_of info req)) (pay_amt_of info req)).2 = false
      · rw [if_pos hlk]
        exact h
      · rw [if_neg hlk]
        cases hm : st.markets req.symbol with
        | none => exact hupd _ _ _ (hlock _ _ (h _)) h
        | some mkt => exact hupd _ _ _ (hlock _ _ (h _)) h
  have hcancel : ∀ (st : AgentState) (creq : CancelOrderRequest),
      (∀ sym mkt, st.markets sym = some mkt →
        ∀ o ∈ mkt.open_orders, 0 ≤ o.price ∧ o.filled ≤ o.quantity) →
      account_inv st.account →
      account_inv (process_cancel_order_request st creq).1.account := by
    intro st creq hbooks h
    unfold process_cancel_order_request
    cases hsym : st.symbol_info creq.symbol with
    | none => exact h
    | some info =>
      simp only
      cases hm : st.markets creq.symbol with
      | none => exact h
      | some mkt =>
        simp only
        cases hfo : get_order mkt creq.client_order_id with
        | none => exact h
        | some o =>
          simp only
          have homem : o ∈ mkt.open_orders := by
            have := List.mem_of_find?_eq_some hfo
            exact this
          have hop := hbooks creq.symbol mkt hm o homem
          have hnn : 0 ≤ (if o.side = TradeSide.buy then
              (info.quote_asset, o.price * (o.quantity - o.filled))
            else (info.base_asset, o.quantity - o.filled)).2 := by
            by_cases hside : o.side = TradeSide.buy
            · simp only [if_pos hside]
              exact mul_nonneg hop.1 (by linarith [hop.2])
            · simp only [if_neg hside]
              linarith [hop.2]
          exact hupd _ _ _ (hunlock _ _ hnn (h _)) h
  refine ⟨hlock, hunlock, ?_, ?_, hproc, hcancel, ?_⟩
  · intro b amount h
    unfold balance_inv consume_locked at *
    simp only
    linarith
  · intro b amount ha h
    unfold balance_inv add_balance at *
    simp only
    linarith
  · intro info price qty ib hp hq hf
    cases ib
    · have h1 : 0 ≤ qty * price := mul_nonneg hq hp
      have : (calc_trade_result info price qty false).recv_qty
          = qty * price * (1 - info.fee_rate) := by
        show qty * price - qty * price * info.fee_rate = qty * price * (1 - info.fee_rate)
        ring
      rw [this]
      exact mul_nonneg h1 (by linarith)
    · have : (calc_trade_result info price qty true).recv_qty
          = qty * (1 - info.fee_rate) := by
        show qty - qty * info.fee_rate = qty * (1 - info.fee_rate)
        ring
      rw [this]
      exact mul_nonneg hq (by linarith)

/-- C3 witness: the preservation parts of the balance-invariant theorem
instantiated at concrete balances, a concrete order intake and a concrete
cancel on the example matcher state. -/
theorem C3_balance_invariant_witness :
    balance_inv (try_lock_balance { balance := 10, locked := 0 } 4).1
    ∧ balance_inv (unlock_balance { balance := 10, locked := 4 } 4)
    ∧ balance_inv (consume_locked { balance := 10, locked := 4 } 4)
    ∧ balance_inv (add_balance { balance := 10, locked := 0 } 5)
    ∧ account_inv (process_order_request ex_state ex_req_good 0).1.account
    ∧ account_inv (process_cancel_order_request ex_state ex_cancel_good).1.account
    ∧ 0 ≤ (calc_trade_result ex_info 2 3 true).recv_qty := by
  have hacct : account_inv ex_state.account := by
    intro a
    show balance_inv (ex_account a)
    unfold ex_account balance_inv eps
    split <;> norm_num
  have hbooks : ∀ sym mkt, ex_state.markets sym = some mkt →
      ∀ o ∈ mkt.open_orders, 0 ≤ o.price ∧ o.filled ≤ o.quantity := by
    intro sym mkt hm
    have : (if sym = "BTCUSDT" then some SimpleMarket.new else Option.none) = some mkt := hm
    split at this
    · cases this
      intro o ho
      simp [SimpleMarket.new] at ho
    · cases this
  exact ⟨C3_balance_invariant.1 _ 4 (by norm_num [balance_inv, eps]),
         C3_balance_invariant.2.1 _ 4 (by norm_num) (by norm_num [balance_inv, eps]),
         C3_balance_invariant.2.2.1 _ 4 (by norm_num [balance_inv, eps]),
         C3_balance_invariant.2.2.2.1 _ 5 (by norm_num) (by norm_num [balance_inv, eps]),
         C3_balance_invariant.2.2.2.2.1 ex_state ex_req_good 0 hacct,
         C3_balance_invariant.2.2.2.2.2.1 ex_state ex_cancel_good hbooks hacct,
         C3_balance_invariant.2.2.2.2.2.2 ex_info 2 3 true (by norm_num) (by norm_num)
           (by norm_num [ex_info])⟩

/-- C1 counterexample: with a trade and a book ticker both at 10 ms,
`next_tick` takes the book ticker first (the source keeps the trade only
under the strict test `trade.time < ticker.event_time`), so the replay
publishes ticker@10 before trade@10 — not the trade first as claimed. -/
theorem C1_replay_tie_counterexample :
    replay_published [trade_at_ms 10] [ticker_at_ms 10]
      = [(PeekingTick.bookTicker (ticker_at_ms 10), 10),
         (PeekingTick.tradeTick (trade_at_ms 10), 10)] := by
  decide

/-- C1 (amended) — Replay merge order: when both a next trade and a next
book ticker are peeked, the one with the smaller timestamp is chosen and
published first; when the two timestamps are equal, the BOOK TICKER is
chosen before the trade.  A trade stream at [10, 30] ms merged with a
ticker stream at [20] ms is still published as trade@10, ticker@20,
trade@30. -/
theorem C1_replay_merge_order :
    (∀ (s : ReplayState) (t : BinanceTradeTick) (ts : List BinanceTradeTick)
        (b : BinanceBookTicker) (bs : List BinanceBookTicker),
        s.trade_ticks = t :: ts → s.booktickers = b :: bs →
        ((t.time < b.event_time →
            (next_tick s).peeking_tick = PeekingTick.tradeTick t
            ∧ (next_tick s).peeking_tick_time = t.time)
          ∧ (b.event_time ≤ t.time →
            (next_tick s).peeking_tick = PeekingTick.bookTicker b
            ∧ (next_tick s).peeking_tick_time = b.event_time)))
    ∧ replay_published [trade_at_ms 10, trade_at_ms 30] [ticker_at_ms 20]
        = [(PeekingTick.tradeTick (trade_at_ms 10), 10),
           (PeekingTick.bookTicker (ticker_at_ms 20), 20),
           (PeekingTick.tradeTick (trade_at_ms 30), 30)] := by
  constructor
  · intro s t ts b bs ht hb
    constructor
    · intro hlt
      unfold next_tick
      rw [ht, hb]
      simp [hlt]
    · intro hle
      unfold next_tick
      rw [ht, hb]
      simp [not_lt.mpr hle]
  · decide

/-- C1 witness: the merge-order theorem applied to the S5 cursor, whose
trade head (10 ms) beats the ticker head (20 ms). -/
theorem C1_replay_merge_order_witness :
    (next_tick c1_merge_state).peeking_tick = PeekingTick.tradeTick (trade_at_ms 10)
    ∧ (next_tick c1_merge_state).peeking_tick_time = 10 :=
  (C1_replay_merge_order.1 c1_merge_state (trade_at_ms 10) [trade_at_ms 30]
    (ticker_at_ms 20) [] rfl rfl).1 (by decide)


/-- Success path of `process_order_request`: with the symbol configured,
the market present and the lock amount covered, intake locks the pay
amount and inserts the order. -/
theorem process_order_ok (st : AgentState) (req : OrderRequest) (info : SymbolInfo)
    (mkt : SimpleMarket) (c : ℕ)
    (hsym : st.symbol_info req.symbol = some info)
    (hmkt : st.markets req.symbol = some mkt)
    (hlk : (st.account (pay_asset_of info req)).locked + pay_amt_of info req
            ≤ (st.account (pay_asset_of info req)).balance) :
    process_order_request st req c =
      ({ account := acct_update st.account (pay_asset_of info req)
            { balance := (st.account (pay_asset_of info req)).balance,
              locked := (st.account (pay_asset_of info req)).locked + pay_amt_of info req },
          markets := mkts_update st.markets req.symbol
            (add_order mkt
              { price := req.price, quantity := req.quantity, filled := 0,
                submit_at := c, side := req.side, order_id := req.client_order_id }),
          symbol_info := st.symbol_info }, true) := by
  have hc : (st.account (pay_asset_of info req)).balance ≥
      (st.account (pay_asset_of info req)).locked + pay_amt_of info req := hlk
  simp only [process_order_request, hsym, try_lock_balance, if_pos hc, hmkt]
  simp

/-- Failure path of `process_order_request`: with the symbol configured
but the required lock amount above the free balance, intake returns the
state unchanged and `Err`. -/
theorem process_order_insufficient (st : AgentState) (req : OrderRequest)
    (info : SymbolInfo) (c : ℕ)
    (hsym : st.symbol_info req.symbol = some info)
    (hfail : (st.account (pay_asset_of info req)).balance <
             (st.account (pay_asset_of info req)).locked + pay_amt_of info req) :
    process_order_request st req c = (st, false) := by
  simp only [process_order_request, hsym, try_lock_balance, if_neg (not_le.mpr hfail)]
  simp

/-- Found path of `process_cancel_order_request`: the located order's
remaining lock is released and the order removed from the book. -/
theorem process_cancel_found (st : AgentState) (creq : CancelOrderRequest)
    (info : SymbolInfo) (mkt : SimpleMarket) (o : LimitOrder)
    (hsym : st.symbol_info creq.symbol = some info)
    (hmkt : st.markets creq.symbol = some mkt)
    (hfound : get_order mkt creq.client_order_id = some o) :
    process_cancel_order_request st creq =
      ({ account := acct_update st.account
            (if o.side = TradeSide.buy then info.quote_asset else info.base_asset)
            (unlock_balance
              (st.account
                (if o.side = TradeSide.buy then info.quote_asset else info.base_asset))
              (if o.side = TradeSide.buy then o.price * (o.quantity - o.filled)
               else o.quantity - o.filled)),
          markets := mkts_update st.markets creq.symbol
            (cancel_order mkt creq.client_order_id),
          symbol_info := st.symbol_info }, true) := by
  simp only [process_cancel_order_request, hsym, hmkt, hfound]
  by_cases hside : o.side = TradeSide.buy
  · simp [hside]
  · simp [hside]

/-- C6 — Insufficient-balance rejection is atomic: with a known symbol,
positive price and a required lock amount exceeding `free - locked` of
the paying asset, intake publishes a single `rejected` result with
`filled_quantity = 0` and returns the state completely unchanged —
no balance moves and no book changes. -/
theorem C6_insufficient_balance_atomic (st : AgentState) (req : OrderRequest)
    (info : SymbolInfo) (now c : ℕ)
    (hsym : st.symbol_info req.symbol = some info)
    (hp : 0 < req.price)
    (hfail : (st.account (pay_asset_of info req)).balance <
             (st.account (pay_asset_of info req)).locked + pay_amt_of info req) :
    ingest_order_request st req now c =
      (st, [{ symbol := req.symbol, at_time := now,
              client_order_id := req.client_order_id, filled_quantity := 0,
              price := req.price, is_buy := req.side == TradeSide.buy,
              status := OrderStatus.rejected }]) := by
  unfold ingest_order_request
  rw [if_neg (not_le.mpr hp), process_order_insufficient st req info c hsym hfail]
  simp

/-- C6 witness: a buy needing 100 USDT against 10 free is rejected
without touching the example state. -/
theorem C6_insufficient_balance_atomic_witness :
    ingest_order_request ex_state ex_req_big 7 7 =
      (ex_state, [{ symbol := "BTCUSDT", at_time := 7, client_order_id := "cidb",
                    filled_quantity := 0, price := 100, is_buy := true,
                    status := OrderStatus.rejected }]) :=
  C6_insufficient_balance_atomic ex_state ex_req_big ex_info 7 7 (by decide)
    (by norm_num [ex_req_big])
    (by norm_num [ex_state, ex_account, ex_info, ex_req_big, pay_asset_of, pay_amt_of])

/-- C10 — Duplicate-id submission still locks funds: when the incoming
order's client id already rests in the book (symbol known, price
positive, balance sufficient), the matcher locks the full pay amount and
answers with status `new`, while every book is left unchanged, so the
newly locked funds correspond to no resting order. -/
theorem C10_duplicate_id_still_locks (st : AgentState) (req : OrderRequest)
    (info : SymbolInfo) (mkt : SimpleMarket) (now c : ℕ)
    (hsym : st.symbol_info req.symbol = some info)
    (hmkt : st.markets req.symbol = some mkt)
    (hp : 0 < req.price)
    (hdup : mkt.open_orders.any (fun x => x.order_id == req.client_order_id) = true)
    (hlk : (st.account (pay_asset_of info req)).locked + pay_amt_of info req
            ≤ (st.account (pay_asset_of info req)).balance) :
    (ingest_order_request st req now c).2 =
        [{ symbol := req.symbol, at_time := now,
           client_order_id := req.client_order_id, filled_quantity := 0,
           price := req.price, is_buy := req.side == TradeSide.buy,
           status := OrderStatus.new }]
    ∧ (ingest_order_request st req now c).1.account (pay_asset_of info req) =
        { balance := (st.account (pay_asset_of info req)).balance,
          locked := (st.account (pay_asset_of info req)).locked + pay_amt_of info req }
    ∧ (∀ a, a ≠ pay_asset_of info req →
        (ingest_order_request st req now c).1.account a = st.account a)
    ∧ (∀ s, (ingest_order_request st req now c).1.markets s = st.markets s) := by
  have hao : add_order mkt
      { price := req.price, quantity := req.quantity, filled := 0,
        submit_at := c, side := req.side, order_id := req.client_order_id } = mkt := by
    unfold add_order
    by_cases hq0 : req.quantity ≤ 0
    · rw [if_pos hq0]
    · rw [if_neg hq0, if_pos hdup]
  have hig : ingest_order_request st req now c =
      ({ account := acct_update st.account (pay_asset_of info req)
            { balance := (st.account (pay_asset_of info req)).balance,
              locked := (st.account (pay_asset_of info req)).locked + pay_amt_of info req },
          markets := mkts_update st.markets req.symbol mkt,
          symbol_info := st.symbol_info },
        [{ symbol := req.symbol, at_time := now,
           client_order_id := req.client_order_id, filled_quantity := 0,
           price := req.price, is_buy := req.side == TradeSide.buy,
           status := OrderStatus.new }]) := by
    unfold ingest_order_request
    rw [if_neg (not_le.mpr hp), process_order_ok st req info mkt c hsym hmkt hlk, hao]
    simp
  refine ⟨by rw [hig], ?_, ?_, ?_⟩
  · rw [hig]
    show acct_update st.account (pay_asset_of info req) _ (pay_asset_of info req) = _
    unfold acct_update
    rw [if_pos rfl]
  · intro a ha
    rw [hig]
    show acct_update st.account (pay_asset_of info req) _ a = _
    unfold acct_update
    rw [if_neg ha]
  · intro s
    rw [hig]
    show mkts_update st.markets req.symbol mkt s = _
    unfold mkts_update
    by_cases hs : s = req.symbol
    · rw [if_pos hs, hs, hmkt]
    · rw [if_neg hs]

/-- C10 witness: re-submitting id "A" against the book that already
holds it locks 2 USDT more and answers `new`, while the book keeps its
single resting order. -/
theorem C10_duplicate_id_still_locks_witness :
    (ingest_order_request ex_state_dup ex_req_dup 9 9).2 =
        [{ symbol := "BTCUSDT", at_time := 9, client_order_id := "A",
           filled_quantity := 0, price := 1, is_buy := true,
           status := OrderStatus.new }]
    ∧ (ingest_order_request ex_state_dup ex_req_dup 9 9).1.account
        (pay_asset_of ex_info ex_req_dup) = { balance := 10, locked := 2 }
    ∧ (ingest_order_request ex_state_dup ex_req_dup 9 9).1.markets "BTCUSDT"
        = ex_state_dup.markets "BTCUSDT" := by
  have h := C10_duplicate_id_still_locks ex_state_dup ex_req_dup ex_info
    (add_order SimpleMarket.new w8_order) 9 9
    (by decide) (by decide) (by norm_num [ex_req_dup]) (by decide)
    (by norm_num [ex_state_dup, ex_account, ex_info, ex_req_dup, pay_asset_of, pay_amt_of])
  refine ⟨?_, ?_, h.2.2.2 "BTCUSDT"⟩
  · rw [h.1]
    decide
  · rw [h.2.1]
    simp [ex_state_dup, ex_account, pay_asset_of, ex_req_dup, pay_amt_of, ex_info]

/-- Missing-order path of `process_cancel_order_request`: an unknown
client id changes nothing and reports failure. -/
theorem process_cancel_missing (st : AgentState) (creq : CancelOrderRequest)
    (info : SymbolInfo) (mkt : SimpleMarket)
    (hsym : st.symbol_info creq.symbol = some info)
    (hmkt : st.markets creq.symbol = some mkt)
    (hnone : get_order mkt creq.client_order_id = Option.none) :
    process_cancel_order_request st creq = (st, false) := by
  simp only [process_cancel_order_request, hsym, hmkt, hnone]

/-- C5 counterexample: a zero-price request is dropped with no
`OrderResult` at all (the claim demands a `rejected` reply), and a
negative-quantity request at positive price is answered `new` while the
locked USDT balance moves from 0 to -1 (the claim demands rejection
before locking). -/
theorem C5_nonpositive_rejection_counterexample :
    ingest_order_request ex_state ex_req_zero_price 5 5 = (ex_state, [])
    ∧ (ingest_order_request ex_state ex_req_neg_qty 5 5).2.map OrderResult.status
        = [OrderStatus.new]
    ∧ ((ingest_order_request ex_state ex_req_neg_qty 5 5).1.account "USDT").locked = -1 := by
  have hzero : ingest_order_request ex_state ex_req_zero_price 5 5 = (ex_state, []) := by
    unfold ingest_order_request
    norm_num [ex_req_zero_price]
  have hig := process_order_ok ex_state ex_req_neg_qty ex_info SimpleMarket.new 5
    (by decide) (by decide)
    (by norm_num [ex_state, ex_account, ex_info, ex_req_neg_qty, pay_asset_of, pay_amt_of])
  have hpneg : ¬ ex_req_neg_qty.price ≤ 0 := by norm_num [ex_req_neg_qty]
  refine ⟨hzero, ?_, ?_⟩
  · unfold ingest_order_request
    rw [if_neg hpneg, hig]
    simp
  · unfold ingest_order_request
    rw [if_neg hpneg, hig]
    show ((acct_update ex_state.account (pay_asset_of ex_info ex_req_neg_qty) _) "USDT").locked
      = -1
    norm_num [acct_update, pay_asset_of, pay_amt_of, ex_req_neg_qty, ex_info, ex_state,
      ex_account]

/-- C5 (amended) — Non-positive price or quantity: a request with
`price ≤ 0` is dropped by the matcher with no lock, no book change and
NO `OrderResult` at all; a request with positive price but
`quantity ≤ 0` (known symbol, market present, lock amount covered) is
kept out of the book by `add_order`'s quantity check, yet the pay amount
is still locked and the published `OrderResult` carries status `new`,
not `rejected`. -/
theorem C5_nonpositive_rejection :
    (∀ (st : AgentState) (req : OrderRequest) (now c : ℕ),
        req.price ≤ 0 → ingest_order_request st req now c = (st, []))
    ∧ (∀ (st : AgentState) (req : OrderRequest) (info : SymbolInfo)
        (mkt : SimpleMarket) (now c : ℕ),
        0 < req.price → req.quantity ≤ 0 →
        st.symbol_info req.symbol = some info →
        st.markets req.symbol = some mkt →
        (st.account (pay_asset_of info req)).locked + pay_amt_of info req
          ≤ (st.account (pay_asset_of info req)).balance →
        (ingest_order_request st req now c).2 =
            [{ symbol := req.symbol, at_time := now,
               client_order_id := req.client_order_id, filled_quantity := 0,
               price := req.price, is_buy := req.side == TradeSide.buy,
               status := OrderStatus.new }]
        ∧ (ingest_order_request st req now c).1.account (pay_asset_of info req) =
            { balance := (st.account (pay_asset_of info req)).balance,
              locked := (st.account (pay_asset_of info req)).locked + pay_amt_of info req }
        ∧ (∀ s, (ingest_order_request st req now c).1.markets s = st.markets s)) := by
  constructor
  · intro st req now c hple
    unfold ingest_order_request
    rw [if_pos hple]
  · intro st req info mkt now c hp hq0 hsym hmkt hlk
    have hao : add_order mkt
        { price := req.price, quantity := req.quantity, filled := 0,
          submit_at := c, side := req.side, order_id := req.client_order_id } = mkt := by
      unfold add_order
      rw [if_pos hq0]
    have hig : ingest_order_request st req now c =
        ({ account := acct_update st.account (pay_asset_of info req)
              { balance := (st.account (pay_asset_of info req)).balance,
                locked := (st.account (pay_asset_of info req)).locked + pay_amt_of info req },
            markets := mkts_update st.markets req.symbol mkt,
            symbol_info := st.symbol_info },
          [{ symbol := req.symbol, at_time := now,
             client_order_id := req.client_order_id, filled_quantity := 0,
             price := req.price, is_buy := req.side == TradeSide.buy,
             status := OrderStatus.new }]) := by
      unfold ingest_order_request
      rw [if_neg (not_le.mpr hp), process_order_ok st req info mkt c hsym hmkt hlk, hao]
      simp
    refine ⟨by rw [hig], ?_, ?_⟩
    · rw [hig]
      show acct_update st.account (pay_asset_of info req) _ (pay_asset_of info req) = _
      unfold acct_update
      rw [if_pos rfl]
    · intro s
      rw [hig]
      show mkts_update st.markets req.symbol mkt s = _
      unfold mkts_update
      by_cases hs : s = req.symbol
      · rw [if_pos hs, hs, hmkt]
      · rw [if_neg hs]

/-- C5 witness: the amended behaviour exercised at the zero-price and
negative-quantity example requests. -/
theorem C5_nonpositive_rejection_witness :
    ingest_order_request ex_state ex_req_zero_price 6 6 = (ex_state, [])
    ∧ (ingest_order_request ex_state ex_req_neg_qty 6 6).2 =
        [{ symbol := "BTCUSDT", at_time := 6, client_order_id := "cidn",
           filled_quantity := 0, price := 1, is_buy := true,
           status := OrderStatus.new }] := by
  have h2 := (C5_nonpositive_rejection.2 ex_state ex_req_neg_qty ex_info
      SimpleMarket.new 6 6 (by norm_num [ex_req_neg_qty]) (by norm_num [ex_req_neg_qty])
      (by decide) (by decide)
      (by norm_num [ex_state, ex_account, ex_info, ex_req_neg_qty, pay_asset_of, pay_amt_of])).1
  refine ⟨C5_nonpositive_rejection.1 ex_state ex_req_zero_price 6 6
    (by norm_num [ex_req_zero_price]), ?_⟩
  rw [h2]
  decide

/-- Locking an amount on one asset and then unlocking the same amount on
the same asset restores the account pointwise. -/
theorem acct_lock_unlock (a : Account) (asset : String) (amt : ℚ) (x : String) :
    acct_update
      (acct_update a asset
        { balance := (a asset).balance, locked := (a asset).locked + amt })
      asset
      (unlock_balance
        ((acct_update a asset
          { balance := (a asset).balance, locked := (a asset).locked + amt }) asset)
        amt) x
      = a x := by
  unfold acct_update unlock_balance
  by_cases hx : x = asset
  · simp only [if_pos hx, if_pos rfl]
    show ({ balance := (a asset).balance, locked := (a asset).locked + amt - amt } :
      AssetBalance) = a x
    rw [add_sub_cancel_right, hx]
  · simp only [if_neg hx]

/-- C4 counterexample: the buy with price 1 and quantity -1 satisfies
every condition the claim lists (known symbol, positive price, the lock
succeeds, fresh id) and is accepted (`Ok`, so status `new` is
published), but `add_order` keeps it out of the book; the cancel then
finds nothing and unlocks nothing, leaving USDT.locked at -1 instead of
its pre-submit value 0. -/
theorem C4_submit_cancel_counterexample :
    (process_order_request ex_state ex_req_neg_qty 0).2 = true
    ∧ ((process_cancel_order_request (process_order_request ex_state ex_req_neg_qty 0).1
          ex_cancel_neg).1.account "USDT").locked = -1
    ∧ (ex_state.account "USDT").locked = 0 := by
  have hig := process_order_ok ex_state ex_req_neg_qty ex_info SimpleMarket.new 0
    (by decide) (by decide)
    (by norm_num [ex_state, ex_account, ex_info, ex_req_neg_qty, pay_asset_of, pay_amt_of])
  have hsym2 : ((process_order_request ex_state ex_req_neg_qty 0).1).symbol_info
      ex_cancel_neg.symbol = some ex_info := by
    rw [hig]
    decide
  have hmkt2 : ((process_order_request ex_state ex_req_neg_qty 0).1).markets
      ex_cancel_neg.symbol = some SimpleMarket.new := by
    rw [hig]
    show mkts_update ex_state.markets ex_req_neg_qty.symbol _ ex_cancel_neg.symbol = _
    norm_num [mkts_update, ex_req_neg_qty, ex_cancel_neg, add_order]
  have hfound2 : get_order SimpleMarket.new ex_cancel_neg.client_order_id = Option.none := by
    decide
  have hcan := process_cancel_missing ((process_order_request ex_state ex_req_neg_qty 0).1)
    ex_cancel_neg ex_info SimpleMarket.new hsym2 hmkt2 hfound2
  refine ⟨by rw [hig], ?_, by norm_num [ex_state, ex_account]⟩
  rw [hcan, hig]
  show ((acct_update ex_state.account (pay_asset_of ex_info ex_req_neg_qty) _) "USDT").locked
    = -1
  norm_num [acct_update, pay_asset_of, pay_amt_of, ex_req_neg_qty, ex_info, ex_state,
    ex_account]

/-- Inserting a positive-quantity order with a fresh id pushes it into
the book and re-sorts. -/
theorem add_order_fresh (m : SimpleMarket) (o : LimitOrder)
    (hq : 0 < o.quantity)
    (hfresh : ∀ x ∈ m.open_orders, x.order_id ≠ o.order_id) :
    add_order m o =
      { m with open_orders := List.insertionSort order_le (m.open_orders ++ [o]) } := by
  have hdup : ¬ ((m.open_orders.any fun x => x.order_id == o.order_id) = true) := by
    intro hcon
    rw [List.any_eq_true] at hcon
    obtain ⟨x, hx, hbeq⟩ := hcon
    exact hfresh x hx (by simpa using hbeq)
  unfold add_order
  rw [if_neg (not_le.mpr hq), if_neg hdup]

/-- After inserting a fresh-id order, `find?` by that id returns exactly
the inserted order. -/
theorem get_order_inserted (l : List LimitOrder) (o : LimitOrder)
    (hfresh : ∀ x ∈ l, x.order_id ≠ o.order_id) :
    (List.insertionSort order_le (l ++ [o])).find? (fun x => x.order_id == o.order_id)
      = some o := by
  cases hfo : (List.insertionSort order_le (l ++ [o])).find?
      (fun x => x.order_id == o.order_id) with
  | none =>
    exfalso
    have hmem : o ∈ List.insertionSort order_le (l ++ [o]) := by
      rw [List.mem_insertionSort]
      simp
    have := List.find?_eq_none.mp hfo o hmem
    simp at this
  | some x =>
    have hpx := List.find?_some hfo
    have hxmem := List.mem_of_find?_eq_some hfo
    rw [List.mem_insertionSort] at hxmem
    rcases List.mem_append.mp hxmem with hx | hx
    · exact absurd (by simpa using hpx) (hfresh x hx)
    · have hxo : x = o := by simpa using hx
      rw [hxo]

/-- C4 (amended) — Submit/cancel round trip: for every order with a
known symbol, an existing market, positive price, POSITIVE QUANTITY,
sufficient free balance and a client id not already resting, submitting
and then cancelling by that id restores every asset's `(free, locked)`
pair exactly (buys lock and later unlock `price * quantity` of the
quote asset; sells lock and later unlock `quantity` of the base asset).
The hypothesis `0 ≤ locked` keeps the source's `unlock_balance`
assertion `locked + 1e-8 ≥ amount` satisfied at the cancel. -/
theorem C4_submit_cancel_roundtrip (st : AgentState) (req : OrderRequest)
    (info : SymbolInfo) (mkt : SimpleMarket) (c : ℕ)
    (hsym : st.symbol_info req.symbol = some info)
    (hmkt : st.markets req.symbol = some mkt)
    (hp : 0 < req.price) (hq : 0 < req.quantity)
    (hfresh : ∀ x ∈ mkt.open_orders, x.order_id ≠ req.client_order_id)
    (hlk : (st.account (pay_asset_of info req)).locked + pay_amt_of info req
            ≤ (st.account (pay_asset_of info req)).balance)
    (hlnn : 0 ≤ (st.account (pay_asset_of info req)).locked) :
    (process_cancel_order_request (process_order_request st req c).1
        { symbol := req.symbol, client_order_id := req.client_order_id }).2 = true
    ∧ ∀ asset,
        ((process_cancel_order_request (process_order_request st req c).1
            { symbol := req.symbol, client_order_id := req.client_order_id }).1.account)
          asset = st.account asset := by
  have hig := process_order_ok st req info mkt c hsym hmkt hlk
  have hsym2 : (process_order_request st req c).1.symbol_info req.symbol = some info := by
    rw [hig]
    exact hsym
  have hmkt2 : (process_order_request st req c).1.markets req.symbol =
      some { mkt with open_orders := List.insertionSort order_le (mkt.open_orders ++
        [⟨req.price, req.quantity, 0, c, req.side, req.client_order_id⟩]) } := by
    rw [hig]
    show mkts_update st.markets req.symbol _ req.symbol = _
    unfold mkts_update
    rw [if_pos rfl, add_order_fresh mkt _ hq hfresh]
  have hfound : get_order
      { mkt with open_orders := List.insertionSort order_le (mkt.open_orders ++
        [⟨req.price, req.quantity, 0, c, req.side, req.client_order_id⟩]) }
      req.client_order_id
      = some ⟨req.price, req.quantity, 0, c, req.side, req.client_order_id⟩ := by
    unfold get_order
    exact get_order_inserted mkt.open_orders
      ⟨req.price, req.quantity, 0, c, req.side, req.client_order_id⟩ hfresh
  have hcan := process_cancel_found (process_order_request st req c).1
    { symbol := req.symbol, client_order_id := req.client_order_id } info
    { mkt with open_orders := List.insertionSort order_le (mkt.open_orders ++
        [⟨req.price, req.quantity, 0, c, req.side, req.client_order_id⟩]) }
    ⟨req.price, req.quantity, 0, c, req.side, req.client_order_id⟩
    hsym2 hmkt2 hfound
  refine ⟨by rw [hcan], ?_⟩
  intro asset
  rw [hcan]
  show acct_update ((process_order_request st req c).1.account) _
      (unlock_balance ((process_order_request st req c).1.account _) _) asset
    = st.account asset
  simp only [sub_zero]
  rw [hig]
  exact acct_lock_unlock st.account (pay_asset_of info req) (pay_amt_of info req) asset

/-- C4 witness: submit buy price 1, qty 2 (locks 2 USDT) on the example
state, cancel it, and the USDT balance pair is restored. -/
theorem C4_submit_cancel_roundtrip_witness :
    (process_cancel_order_request (process_order_request ex_state ex_req_good 3).1
        { symbol := "BTCUSDT", client_order_id := "cidg" }).2 = true
    ∧ ((process_cancel_order_request (process_order_request ex_state ex_req_good 3).1
        { symbol := "BTCUSDT", client_order_id := "cidg" }).1.account) "USDT"
      = ex_state.account "USDT" := by
  have h := C4_submit_cancel_roundtrip ex_state ex_req_good ex_info SimpleMarket.new 3
    (by decide) (by decide) (by norm_num [ex_req_good]) (by norm_num [ex_req_good])
    (by intro x hx; simp [SimpleMarket.new] at hx)
    (by norm_num [ex_state, ex_account, ex_info, ex_req_good, pay_asset_of, pay_amt_of])
    (by norm_num [ex_state, ex_account, ex_info, ex_req_good, pay_asset_of])
  exact ⟨h.1, h.2 "USDT"⟩

/-- C9 — the fill-emission sequence of `one_iteration` depends on the
order in which the symbols of `market_by_symbol` are visited: with two
symbols whose books both produce a fill, visiting AAA before BBB and
BBB before AAA yields different published sequences.  The source
iterates a Rust `HashMap` here (and in `make_account_update`), whose
iteration order is randomized per map instance, so two engine runs need
not publish identical sequences even though the scheduler's heap
tie-break is deterministic. -/
theorem C9_emission_depends_on_symbol_order :
    one_iteration_fill_events c9_markets ["AAA", "BBB"]
      ≠ one_iteration_fill_events c9_markets ["BBB", "AAA"] := by
  have e1 : c9_markets "AAA" = some c9_mkt_a := by
    simp [c9_markets]
  have e2 : c9_markets "BBB" = some c9_mkt_b := by
    simp [c9_markets]
  have r1 : (try_match_market c9_mkt_a).2 =
      [{ side := TradeSide.buy, price := 100, quantity := 1, reamin_qty_to_fill := 0,
         event_at := 0, order_id := "a1" }] := by
    norm_num [c9_mkt_a, add_market_trade, add_order, SimpleMarket.new, try_match_market,
      run_trades, match_one_trade, sweep_buys, List.insertionSort, List.orderedInsert,
      order_le]
  have r2 : (try_match_market c9_mkt_b).2 =
      [{ side := TradeSide.buy, price := 200, quantity := 1, reamin_qty_to_fill := 0,
         event_at := 0, order_id := "b1" }] := by
    norm_num [c9_mkt_b, add_market_trade, add_order, SimpleMarket.new, try_match_market,
      run_trades, match_one_trade, sweep_buys, List.insertionSort, List.orderedInsert,
      order_le]
  simp only [one_iteration_fill_events, List.foldl_cons, List.foldl_nil, e1, e2, r1, r2]
  simp

/-- The claim's walk emits nothing once the trade's remaining quantity
is exhausted. -/
theorem spec_fill_walk_nonpos (l : List LimitOrder) (r : ℚ) (h : r ≤ 0) :
    spec_fill_walk l r = [] := by
  cases l with
  | nil => rfl
  | cons o rest => simp only [spec_fill_walk, if_pos h]

/-- The aggressive-sell loop emits, in visit order, exactly the fills
of the claim's walk over the qualifying buys, as long as the trade
quantity starts positive. -/
theorem sweep_buys_events_eq (tprice : ℚ) (tat : ℕ) :
    ∀ (l : List LimitOrder) (remain : ℚ), 0 < remain →
    (sweep_buys l remain tprice tat).2.map (fun e => (e.order_id, e.quantity))
      = spec_fill_walk (l.filter (qualifies_buy tprice)) remain := by
  intro l
  induction l with
  | nil =>
    intro remain hr
    simp [sweep_buys, spec_fill_walk]
  | cons o rest ih =>
    intro remain hr
    by_cases hqual : o.side = TradeSide.buy ∧ o.price ≥ tprice
    · have hfil : (o :: rest).filter (qualifies_buy tprice)
          = o :: rest.filter (qualifies_buy tprice) := by
        simp [List.filter_cons, qualifies_buy, hqual]
      rw [hfil]
      simp only [sweep_buys, if_pos hqual]
      by_cases hbr : remain - min (o.quantity - o.filled) remain ≤ 0
      · rw [if_pos hbr]
        simp only [List.map_cons, List.map_nil, spec_fill_walk, if_neg (not_le.mpr hr)]
        rw [spec_fill_walk_nonpos _ _ hbr]
      · rw [if_neg hbr]
        simp only [List.map_cons, spec_fill_walk, if_neg (not_le.mpr hr)]
        rw [ih _ (lt_of_not_le fun hcon => hbr (by linarith))]
    · have hfil : (o :: rest).filter (qualifies_buy tprice)
          = rest.filter (qualifies_buy tprice) := by
        simp [List.filter_cons, qualifies_buy, hqual]
      rw [hfil]
      simp only [sweep_buys, if_neg hqual]
      exact ih remain hr

/-- The aggressive-buy loop emits, in visit order, exactly the fills of
the claim's walk over the qualifying sells, as long as the trade
quantity starts positive. -/
theorem sweep_sells_events_eq (tprice : ℚ) (tat : ℕ) :
    ∀ (l : List LimitOrder) (remain : ℚ), 0 < remain →
    (sweep_sells l remain tprice tat).2.map (fun e => (e.order_id, e.quantity))
      = spec_fill_walk (l.filter (qualifies_sell tprice)) remain := by
  intro l
  induction l with
  | nil =>
    intro remain hr
    simp [sweep_sells, spec_fill_walk]
  | cons o rest ih =>
    intro remain hr
    by_cases hqual : o.side = TradeSide.sell ∧ o.price ≤ tprice
    · have hfil : (o :: rest).filter (qualifies_sell tprice)
          = o :: rest.filter (qualifies_sell tprice) := by
        simp [List.filter_cons, qualifies_sell, hqual]
      rw [hfil]
      simp only [sweep_sells, if_pos hqual]
      by_cases hbr : remain - min (o.quantity - o.filled) remain ≤ 0
      · rw [if_pos hbr]
        simp only [List.map_cons, List.map_nil, spec_fill_walk, if_neg (not_le.mpr hr)]
        rw [spec_fill_walk_nonpos _ _ hbr]
      · rw [if_neg hbr]
        simp only [List.map_cons, spec_fill_walk, if_neg (not_le.mpr hr)]
        rw [ih _ (lt_of_not_le fun hcon => hbr (by linarith))]
    · have hfil : (o :: rest).filter (qualifies_sell tprice)
          = rest.filter (qualifies_sell tprice) := by
        simp [List.filter_cons, qualifies_sell, hqual]
      rw [hfil]
      simp only [sweep_sells, if_neg hqual]
      exact ih remain hr

/-- C2 — Matching against the tape: for a trade with positive quantity
against a sorted book, an aggressive sell's emitted fills are exactly
the claim's walk over the qualifying resting buys taken in
highest-to-lowest price order (each filled by `min(order remaining,
trade remaining)`, stopping once the trade is exhausted); an aggressive
buy symmetrically walks the qualifying sells lowest-to-highest; fully
filled orders are removed after the trade; and the S3 book (buys A@100
qty 10, B@101 qty 10 swept by a sell at price 100 qty 15) yields exactly
the two fills B for 10 then A for 5, in that order. -/
theorem C2_tape_matching (orders : List LimitOrder) (t : MarketTrade)
    (hq : 0 < t.quantity) (hs : List.Sorted order_le orders) :
    ((t.is_buyer_maker = true →
        (match_one_trade orders t).2.map (fun e => (e.order_id, e.quantity))
          = spec_fill_walk (orders.reverse.filter (qualifies_buy t.price)) t.quantity
        ∧ (orders.reverse.filter (qualifies_buy t.price)).Pairwise
            (fun a b => b.price ≤ a.price))
      ∧ (t.is_buyer_maker = false →
        (match_one_trade orders t).2.map (fun e => (e.order_id, e.quantity))
          = spec_fill_walk (orders.filter (qualifies_sell t.price)) t.quantity
        ∧ (orders.filter (qualifies_sell t.price)).Pairwise
            (fun a b => a.price ≤ b.price))
      ∧ (∀ o ∈ (match_one_trade orders t).1, o.filled < o.quantity))
    ∧ (try_match_market s3_market).2.map (fun e => (e.order_id, e.quantity))
        = [("B", 10), ("A", 5)] := by
  have hprice : orders.Pairwise fun a b => a.price ≤ b.price := by
    refine hs.imp ?_
    intro a b hab
    rcases hab with h | ⟨h, _⟩
    · exact le_of_lt h
    · exact le_of_eq h
  constructor
  · refine ⟨?_, ?_, ?_⟩
    · intro hbm
      constructor
      · unfold match_one_trade
        rw [if_pos hbm]
        exact sweep_buys_events_eq t.price t.trade_at orders.reverse t.quantity hq
      · refine List.Pairwise.sublist (List.filter_sublist _) ?_
        rw [List.pairwise_reverse]
        exact hprice
    · intro hbm
      constructor
      · unfold match_one_trade
        rw [if_neg (by rw [hbm]; exact Bool.false_ne_true)]
        exact sweep_sells_events_eq t.price t.trade_at orders t.quantity hq
      · exact List.Pairwise.sublist (List.filter_sublist _) hprice
    · intro o ho
      unfold match_one_trade at ho
      split at ho
      · have := (List.mem_filter.mp ho).2
        simpa using this
      · have := (List.mem_filter.mp ho).2
        simpa using this
  · norm_num [s3_market, add_market_trade, add_order, SimpleMarket.new, try_match_market,
      run_trades, match_one_trade, sweep_buys, List.insertionSort, List.orderedInsert,
      order_le]

/-- C2 witness: the theorem applied at the empty sorted book and a unit
trade extracts the closed S3 sweep result. -/
theorem C2_tape_matching_witness :
    (try_match_market s3_market).2.map (fun e => (e.order_id, e.quantity))
      = [("B", 10), ("A", 5)] :=
  (C2_tape_matching []
    { price := 1, quantity := 1, trade_at := 0, is_buyer_maker := true }
    (by norm_num) (by simp)).2

/-- The aggressive-sell loop only rewrites `filled`: erasing that field
recovers the walked list. -/
theorem sweep_buys_map_erase (tprice : ℚ) (tat : ℕ) :
    ∀ (l : List LimitOrder) (remain : ℚ),
    (sweep_buys l remain tprice tat).1.map erase_filled = l.map erase_filled := by
  intro l
  induction l with
  | nil => intro remain; simp [sweep_buys]
  | cons o rest ih =>
    intro remain
    by_cases hqual : o.side = TradeSide.buy ∧ o.price ≥ tprice
    · simp only [sweep_buys, if_pos hqual]
      by_cases hbr : remain - min (o.quantity - o.filled) remain ≤ 0
      · rw [if_pos hbr]
        simp [erase_filled]
      · rw [if_neg hbr]
        simp only [List.map_cons, ih]
        simp [erase_filled]
    · simp only [sweep_buys, if_neg hqual, List.map_cons, ih]

/-- The aggressive-buy loop only rewrites `filled`. -/
theorem sweep_sells_map_erase (tprice : ℚ) (tat : ℕ) :
    ∀ (l : List LimitOrder) (remain : ℚ),
    (sweep_sells l remain tprice tat).1.map erase_filled = l.map erase_filled := by
  intro l
  induction l with
  | nil => intro remain; simp [sweep_sells]
  | cons o rest ih =>
    intro remain
    by_cases hqual : o.side = TradeSide.sell ∧ o.price ≤ tprice
    · simp only [sweep_sells, if_pos hqual]
      by_cases hbr : remain - min (o.quantity - o.filled) remain ≤ 0
      · rw [if_pos hbr]
        simp [erase_filled]
      · rw [if_neg hbr]
        simp only [List.map_cons, ih]
        simp [erase_filled]
    · simp only [sweep_sells, if_neg hqual, List.map_cons, ih]

/-- The book invariants only read fields that `erase_filled` keeps, so
they transfer along equal `erase_filled` images. -/
theorem book_inv_of_map_erase_eq {l1 l2 : List LimitOrder}
    (h : l1.map erase_filled = l2.map erase_filled) (hinv : book_inv l1) :
    book_inv l2 := by
  obtain ⟨hids, hqty, hsort⟩ := hinv
  refine ⟨?_, ?_, ?_⟩
  · have h1 : (l1.map erase_filled).Pairwise (fun a b => a.order_id ≠ b.order_id) := by
      rw [List.pairwise_map]
      exact hids
    rw [h, List.pairwise_map] at h1
    exact h1
  · intro o ho
    have hmem : erase_filled o ∈ l2.map erase_filled := List.mem_map_of_mem _ ho
    rw [← h] at hmem
    obtain ⟨o1, ho1, heq⟩ := List.mem_map.mp hmem
    have hqeq : o1.quantity = o.quantity := by
      simpa [erase_filled] using congrArg LimitOrder.quantity heq
    rw [← hqeq]
    exact hqty o1 ho1
  · have h1 : (l1.map erase_filled).Pairwise order_le := by
      rw [List.pairwise_map]
      exact hsort
    rw [h, List.pairwise_map] at h1
    exact h1

/-- `add_order` preserves the book invariants. -/
theorem add_order_book_inv (m : SimpleMarket) (o : LimitOrder)
    (h : book_inv m.open_orders) : book_inv (add_order m o).open_orders := by
  unfold add_order
  by_cases hq0 : o.quantity ≤ 0
  · rw [if_pos hq0]
    exact h
  · rw [if_neg hq0]
    by_cases hdup : (m.open_orders.any fun x => x.order_id == o.order_id) = true
    · rw [if_pos hdup]
      exact h
    · rw [if_neg hdup]
      obtain ⟨hids, hqty, hsort⟩ := h
      have hperm : List.Perm (List.insertionSort order_le (m.open_orders ++ [o]))
          (m.open_orders ++ [o]) := List.perm_insertionSort order_le _
      refine ⟨?_, ?_, ?_⟩
      · refine (List.Perm.pairwise_iff (fun hab heq => hab heq.symm) hperm).mpr ?_
        rw [List.pairwise_append]
        refine ⟨hids, List.pairwise_singleton _ _, ?_⟩
        intro a ha b hb
        have hbo : b = o := by simpa using hb
        subst hbo
        intro heq
        apply hdup
        rw [List.any_eq_true]
        exact ⟨a, ha, by simp [heq]⟩
      · intro x hx
        rcases List.mem_append.mp (hperm.mem_iff.mp hx) with hx1 | hx1
        · exact hqty x hx1
        · have hxo : x = o := by simpa using hx1
          subst hxo
          exact lt_of_not_le hq0
      · exact List.sorted_insertionSort order_le _

/-- `cancel_order` preserves the book invariants. -/
theorem cancel_order_book_inv (m : SimpleMarket) (oid : String)
    (h : book_inv m.open_orders) : book_inv (cancel_order m oid).open_orders := by
  obtain ⟨hids, hqty, hsort⟩ := h
  refine ⟨List.Pairwise.sublist (List.filter_sublist _) hids, ?_,
          List.Pairwise.sublist (List.filter_sublist _) hsort⟩
  intro o ho
  exact hqty o (List.mem_of_mem_filter ho)

/-- Matching one tape trade preserves the book invariants. -/
theorem match_one_trade_book_inv (orders : List LimitOrder) (t : MarketTrade)
    (h : book_inv orders) : book_inv (match_one_trade orders t).1 := by
  unfold match_one_trade
  by_cases hbm : t.is_buyer_maker = true
  · rw [if_pos hbm]
    have hmap : orders.map erase_filled =
        ((sweep_buys orders.reverse t.quantity t.price t.trade_at).1.reverse).map
          erase_filled := by
      rw [List.map_reverse, sweep_buys_map_erase, List.map_reverse, List.reverse_reverse]
    obtain ⟨hids, hqty, hsort⟩ := book_inv_of_map_erase_eq hmap h
    refine ⟨List.Pairwise.sublist (List.filter_sublist _) hids, ?_,
            List.Pairwise.sublist (List.filter_sublist _) hsort⟩
    intro o ho
    exact hqty o (List.mem_of_mem_filter ho)
  · rw [if_neg hbm]
    have hmap : orders.map erase_filled =
        ((sweep_sells orders t.quantity t.price t.trade_at).1).map erase_filled := by
      rw [sweep_sells_map_erase]
    obtain ⟨hids, hqty, hsort⟩ := book_inv_of_map_erase_eq hmap h
    refine ⟨List.Pairwise.sublist (List.filter_sublist _) hids, ?_,
            List.Pairwise.sublist (List.filter_sublist _) hsort⟩
    intro o ho
    exact hqty o (List.mem_of_mem_filter ho)

/-- The drain loop preserves the book invariants. -/
theorem run_trades_book_inv : ∀ (ts : List MarketTrade) (orders : List LimitOrder),
    book_inv orders → book_inv (run_trades orders ts).1 := by
  intro ts
  induction ts with
  | nil =>
    intro orders h
    simpa [run_trades] using h
  | cons t ts ih =>
    intro orders h
    simp only [run_trades]
    exact ih _ (match_one_trade_book_inv orders t h)

/-- C8 — Book invariants: in every book reachable by any sequence of
`add_order`, `cancel_order`, `add_market_trade` and `try_match_market`,
no two resting orders share an order id, every resting order has
positive quantity, and the list is sorted by `(price, submit_at)`
ascending; moreover an add whose id already rests leaves the book
unchanged. -/
theorem C8_book_invariants (m : SimpleMarket) (h : Reachable m) :
    ((m.open_orders.Pairwise fun a b => a.order_id ≠ b.order_id)
      ∧ (∀ o ∈ m.open_orders, 0 < o.quantity)
      ∧ m.open_orders.Sorted order_le)
    ∧ (∀ o : LimitOrder,
        (m.open_orders.any fun x => x.order_id == o.order_id) = true →
        add_order m o = m) := by
  have hinv : book_inv m.open_orders := by
    induction h with
    | init => exact ⟨List.Pairwise.nil, by simp [SimpleMarket.new], List.sorted_nil⟩
    | add m o hm ihm => exact add_order_book_inv m o ihm
    | cancel m oid hm ihm => exact cancel_order_book_inv m oid ihm
    | trade m t hm ihm => exact ihm
    | matching m hm ihm => exact run_trades_book_inv m.market_trade_buf m.open_orders ihm
  refine ⟨hinv, ?_⟩
  intro o hdup
  unfold add_order
  by_cases hq0 : o.quantity ≤ 0
  · rw [if_pos hq0]
  · rw [if_neg hq0, if_pos hdup]

/-- C8 witness: the invariants hold at the concrete reachable book that
contains the single order "A". -/
theorem C8_book_invariants_witness :
    ((add_order SimpleMarket.new w8_order).open_orders.Pairwise
      fun a b => a.order_id ≠ b.order_id)
    ∧ (add_order SimpleMarket.new w8_order).open_orders.Sorted order_le :=
  ⟨(C8_book_invariants _ (Reachable.add _ _ Reachable.init)).1.1,
   (C8_book_invariants _ (Reachable.add _ _ Reachable.init)).1.2.2⟩
